import Mathlib

/-!
Verification of the sariaf HTTP router (bingoohuang fork).

The development shallowly embeds the routing trie of `sariaf.go`:
`Node.add` (pattern registration), `Node.find` (path resolution),
`Router.Search` (method-fallback lookup) and `Router.Handle`
(registration entry point).  Handlers and tags are represented by
numeric identifiers; the Go `map[string]*Node` children maps become
association lists with Go map update semantics (replace or insert);
`http.HandlerFunc` values become `Option Nat` (`none` = Go `nil`).
-/

namespace Sariaf

/-- Association-list lookup, models Go `m[k]` (comma-ok form). -/
def lookupA {α : Type} : List (String × α) → String → Option α
  | [], _ => none
  | (k', v) :: rest, k => if k' = k then some v else lookupA rest k

/-- Association-list update, models Go `m[k] = v` (replace or insert). -/
def setA {α : Type} : List (String × α) → String → α → List (String × α)
  | [], k, v => [(k, v)]
  | (k', v') :: rest, k, v =>
    if k' = k then (k, v) :: rest else (k', v') :: setA rest k v

/-- Request params, Go `RouterParams map[string]string`. -/
abbrev RouterParams := List (String × String)

/-- Models Go `params[k] = v`. -/
def insertParam (ps : RouterParams) (k v : String) : RouterParams := setA ps k v

/-- The two root errors of the router: `ErrRouterDuplicate` and
`ErrRouterSyntax` from sariaf.go. -/
inductive RouterErr where
  | duplicate
  | invalid
  deriving DecidableEq, Repr

/-- Trie node, Go `Node` struct.  `opt` models the `Option *RouterOption`
pointer: `none` is a nil pointer, `some tag` is a `RouterOption` whose
`Tag` field holds `tag` (itself optional, nil interface = `none`). -/
inductive Node where
  | mk (path key : String) (children : List (String × Node))
       (handler : Option Nat) (param : String) (star : Bool)
       (opt : Option (Option Nat))

def Node.path : Node → String
  | .mk p _ _ _ _ _ _ => p

def Node.key : Node → String
  | .mk _ k _ _ _ _ _ => k

def Node.children : Node → List (String × Node)
  | .mk _ _ c _ _ _ _ => c

def Node.handler : Node → Option Nat
  | .mk _ _ _ h _ _ _ => h

def Node.param : Node → String
  | .mk _ _ _ _ pr _ _ => pr

def Node.star : Node → Bool
  | .mk _ _ _ _ _ st _ => st

def Node.opt : Node → Option (Option Nat)
  | .mk _ _ _ _ _ _ o => o

/-- Go `current.Handler = handler` (handler is never nil there: a nil
argument was replaced by `Noop` in `Handle`). -/
def Node.setHandler : Node → Nat → Node
  | .mk p k c _ pr st o, h => .mk p k c (some h) pr st o

/-- Go `current.Children[k] = next`. -/
def Node.setChild : Node → String → Node → Node
  | .mk p k c h pr st o, key, v => .mk p k (setA c key v) h pr st o

/-- Go `strings.TrimPrefix(path, "/")`: drops one leading slash. -/
def trimSlash (p : String) : String :=
  match p.data with
  | '/' :: r => String.mk r
  | _ => p

/-- Go `strings.Split(s, "/")` on the character list. -/
def splitAux : List Char → List Char → List String
  | [], acc => [String.mk acc.reverse]
  | c :: rest, acc =>
    if c = '/' then String.mk acc.reverse :: splitAux rest []
    else splitAux rest (c :: acc)

/-- The segment list `slice` computed at the top of both `Node.add` and
`Node.find`: trim one leading slash, then split on slashes. -/
def splitPath (p : String) : List String := splitAux (trimSlash p).data []

/-- Go `len(k) > 1 && (k[0] == ':' || k[0] == '*')`.  Byte length and
first byte agree with character length and first character here because
`:` and `*` are single-byte characters. -/
def isCaptureSeg (k : String) : Bool :=
  match k.data with
  | c :: _ :: _ => c == ':' || c == '*'
  | _ => false

/-- Go `len(k) > 1 && k[0] == '*'`, the wildcard-counting test. -/
def isStarSeg (k : String) : Bool :=
  match k.data with
  | c :: _ :: _ => c == '*'
  | _ => false

/-- The child key a segment is stored under: captures alias to `*`. -/
def keyOf (k : String) : String := if isCaptureSeg k then "*" else k

/-- The parameter name recorded for a segment, Go `param = k[1:]`. -/
def paramOf (k : String) : String :=
  if isCaptureSeg k then String.mk k.data.tail else ""

/-- Number of `*name` segments in a pattern, Go `stars`. -/
def countStars (pat : String) : Nat :=
  ((splitPath pat).filter isStarSeg).length

/-- The node `add` creates for a segment `k` it has to graft: Go
`&Node{Path: path, Key: k, Children: …, Param: param, Star: stars > 0,
Option: option, Router: r}`. -/
def freshFor (p : String) (tg : Option Nat) (sf : Bool) (k : String) : Node :=
  Node.mk p (keyOf k) [] none (paramOf k) sf (some tg)

/-- The descent loop of `Node.add`.  `sf` is `stars > 0` (constant for
one insertion), `sp` is `starPrev`, `dup` is `duplicate`.  The returned
node is the updated subtree rooted at `cur` (mutations performed so far
persist even when an error is returned, as in Go). -/
def addLoop (h : Nat) (p : String) (tg : Option Nat) (sf : Bool) :
    Node → List String → Bool → Bool → Node × Option RouterErr
  | cur, [], _, dup =>
    if dup then (cur, some RouterErr.duplicate) else (cur.setHandler h, none)
  | cur, k :: rest, sp, dup =>
    let key := keyOf k
    if sf && sp then
      match lookupA cur.children key with
      | some _ =>
        if dup then (cur, some RouterErr.duplicate) else (cur.setHandler h, none)
      | none => (cur, some RouterErr.invalid)
    else
      match lookupA cur.children key with
      | some nx =>
        let r := addLoop h p tg sf nx rest true dup
        (cur.setChild key r.1, r.2)
      | none =>
        let r := addLoop h p tg sf (freshFor p tg sf k) rest sp false
        (cur.setChild key r.1, r.2)

/-- Go `Node.add`: wildcard-count precheck, then the descent loop with
`starPrev = false` and `duplicate = true`. -/
def Node.add (n : Node) (path : String) (h : Nat) (tg : Option Nat) :
    Node × Option RouterErr :=
  let slice := splitPath path
  let stars := (slice.filter isStarSeg).length
  if stars > 1 then (n, some RouterErr.invalid)
  else addLoop h path tg (stars != 0) n slice false true

/-- Go `filepath.Clean` restricted to rooted paths, processed at the
segment level: empty and `.` elements vanish, `..` pops the previous
element (and vanishes at the root). -/
def cleanStack : List String → List String → List String
  | [], acc => acc.reverse
  | s :: rest, acc =>
    if s = "" ∨ s = "." then cleanStack rest acc
    else if s = ".." then cleanStack rest acc.tail
    else cleanStack rest (s :: acc)

/-- Joins segments with slashes, Go `strings.Join(segs, "/")`. -/
def joinSlash : List String → String
  | [] => ""
  | [s] => s
  | s :: rest => s ++ "/" ++ joinSlash rest

/-- Go `filepath.Join(append([]string{"/"}, segs...)...)`: the first
element `/` is non-empty, so this is `Clean` of the rooted slash-join
of the segments. -/
def joinRooted (segs : List String) : String :=
  "/" ++ joinSlash (cleanStack segs [])

/-- The descent loop of `Node.find`.  Literal child first, then the `*`
child; a node with a parameter binds it, and a star node returns at once
with the joined remainder; after the last segment a star child matching
zero segments is grafted on, and a handler-less landing node is dropped. -/
def findLoop : Node → List String → RouterParams → Option Node × RouterParams
  | cur, [], params =>
    let pair : Node × RouterParams :=
      match lookupA cur.children "*" with
      | some nx => if nx.star then (nx, insertParam params nx.param "/") else (cur, params)
      | none => (cur, params)
    if pair.1.handler.isNone then (none, pair.2) else (some pair.1, pair.2)
  | cur, k :: rest, params =>
    let sel : Option Node :=
      match lookupA cur.children k with
      | some nx => some nx
      | none => lookupA cur.children "*"
    match sel with
    | none => (none, params)
    | some nx =>
      if nx.param ≠ "" then
        if nx.star then (some nx, insertParam params nx.param (joinRooted (k :: rest)))
        else findLoop nx rest (insertParam params nx.param k)
      else findLoop nx rest params

/-- Go `Node.find`. -/
def Node.find (n : Node) (path : String) : Option Node × RouterParams :=
  findLoop n (splitPath path) []

/-- The body of the `some nx` branch of one `findLoop` step: what
resolution does after committing to the child `nx` for segment `k`. -/
def findStep (nx : Node) (k : String) (rest : List String) (params : RouterParams) :
    Option Node × RouterParams :=
  if nx.param ≠ "" then
    if nx.star then (some nx, insertParam params nx.param (joinRooted (k :: rest)))
    else findLoop nx rest (insertParam params nx.param k)
  else findLoop nx rest params

/-- The router: the per-method trie map (middlewares and the HTTP glue
carry no routing logic and are not modelled). -/
structure Router where
  trees : List (String × Node)

/-- Go `New()`. -/
def freshRouter : Router := ⟨[]⟩

/-- The root node `Handle` creates for a method on first registration. -/
def emptyRoot : Node := Node.mk "/" "" [] none "" false none

/-- Go `Router.Search`: exact-method trie, falling back to the `ANY`
trie when the method has no trie or its trie produces no node. -/
def Router.Search (r : Router) (method path : String) : Option Node × RouterParams :=
  let t0 := lookupA r.trees method
  let t1 := if t0.isNone ∧ method ≠ "ANY" then lookupA r.trees "ANY" else t0
  match t1 with
  | none => (none, [])
  | some t =>
    let res := t.find path
    if res.1.isSome ∨ method = "ANY" then res
    else
      match lookupA r.trees "ANY" with
      | none => (none, [])
      | some t2 => t2.find path

/-- Go `Router.Handle`: substitute `Noop` (id 0) for a nil handler,
create the root for the method if missing, then delegate to `add`.  The
possibly mutated tree is stored back even when `add` fails. -/
def Router.Handle (r : Router) (method path : String)
    (handler : Option Nat) (tag : Option Nat) : Router × Option RouterErr :=
  let h := handler.getD 0
  let t0 := match lookupA r.trees method with
    | some t => t
    | none => emptyRoot
  let res := t0.add path h tag
  (⟨setA r.trees method res.1⟩, res.2)

/-- Handler of the node returned by a resolution, if any. -/
def foundHandler (res : Option Node × RouterParams) : Option Nat :=
  match res.1 with
  | some n => n.handler
  | none => none

/-- Handler returned by `Search`. -/
def searchedHandler (r : Router) (m p : String) : Option Nat :=
  foundHandler (r.Search m p)

/-- Params returned by `Search`. -/
def searchedParams (r : Router) (m p : String) : RouterParams :=
  (r.Search m p).2

/-- Whether `Search` produced a node. -/
def searchedFound (r : Router) (m p : String) : Bool :=
  (r.Search m p).1.isSome

/-- The trie registered for a method, for stating facts about `find`. -/
def treeOf (r : Router) (m : String) : Node :=
  (lookupA r.trees m).getD emptyRoot

/-- Whether the whole (normalized) segment path of a pattern already
exists in a trie. -/
def hasPath (n : Node) : List String → Bool
  | [] => true
  | k :: rest =>
    match lookupA n.children (keyOf k) with
    | some nx => hasPath nx rest
    | none => false

/-- `hasPath` through the router, against the trie of a method. -/
def hasPathR (r : Router) (m pat : String) : Bool :=
  match lookupA r.trees m with
  | some t => hasPath t (splitPath pat)
  | none => false

/-! Basic lemmas about the association-list operations and the node
field updaters. -/

theorem lookupA_setA {α : Type} (l : List (String × α)) (k : String) (v : α) :
    lookupA (setA l k v) k = some v := by
  induction l with
  | nil => simp [setA, lookupA]
  | cons hd tl ih =>
    obtain ⟨k', v'⟩ := hd
    by_cases hk : k' = k
    · simp [setA, lookupA, hk]
    · simp [setA, lookupA, hk, ih]

theorem lookupA_setA_ne {α : Type} (l : List (String × α)) (k k' : String) (v : α)
    (h : k' ≠ k) : lookupA (setA l k v) k' = lookupA l k' := by
  induction l with
  | nil => simp [setA, lookupA, Ne.symm h]
  | cons hd tl ih =>
    obtain ⟨k0, v0⟩ := hd
    by_cases hk : k0 = k
    · subst hk
      simp [setA, lookupA, Ne.symm h]
    · simp [setA, lookupA, hk, ih]

theorem setA_self {α : Type} (l : List (String × α)) (k : String) (v : α)
    (h : lookupA l k = some v) : setA l k v = l := by
  induction l with
  | nil => simp [lookupA] at h
  | cons hd tl ih =>
    obtain ⟨k0, v0⟩ := hd
    by_cases hk : k0 = k
    · simp [lookupA, hk] at h
      simp [setA, hk, h]
    · simp [lookupA, hk] at h
      simp [setA, hk, ih h]

@[simp] theorem children_setChild (n : Node) (k : String) (v : Node) :
    (n.setChild k v).children = setA n.children k v := by cases n; rfl

@[simp] theorem param_setChild (n : Node) (k : String) (v : Node) :
    (n.setChild k v).param = n.param := by cases n; rfl

@[simp] theorem star_setChild (n : Node) (k : String) (v : Node) :
    (n.setChild k v).star = n.star := by cases n; rfl

@[simp] theorem handler_setChild (n : Node) (k : String) (v : Node) :
    (n.setChild k v).handler = n.handler := by cases n; rfl

@[simp] theorem children_setHandler (n : Node) (h : Nat) :
    (n.setHandler h).children = n.children := by cases n; rfl

@[simp] theorem param_setHandler (n : Node) (h : Nat) :
    (n.setHandler h).param = n.param := by cases n; rfl

@[simp] theorem star_setHandler (n : Node) (h : Nat) :
    (n.setHandler h).star = n.star := by cases n; rfl

@[simp] theorem handler_setHandler (n : Node) (h : Nat) :
    (n.setHandler h).handler = some h := by cases n; rfl

theorem setChild_self (n : Node) (k : String) (v : Node)
    (h : lookupA n.children k = some v) : n.setChild k v = n := by
  cases n with
  | mk p key c hd pr st o =>
    simp only [Node.children] at h
    simp [Node.setChild, setA_self _ _ _ h]

theorem splitAux_ne_nil (l acc : List Char) : splitAux l acc ≠ [] := by
  induction l generalizing acc with
  | nil => simp [splitAux]
  | cons c rest ih =>
    by_cases hc : c = '/'
    · simp [splitAux, hc]
    · simp [splitAux, hc]
      exact ih _

theorem splitPath_ne_nil (p : String) : splitPath p ≠ [] := splitAux_ne_nil _ _

theorem findLoop_emptyRoot (segs : List String) (params : RouterParams) :
    findLoop emptyRoot segs params = (none, params) := by
  cases segs with
  | nil => rfl
  | cons k rest => rfl

theorem find_emptyRoot (p : String) : Node.find emptyRoot p = (none, []) := by
  unfold Node.find
  exact findLoop_emptyRoot _ _

/-! Lemmas about the registration descent.  A descent that only ever
creates nodes builds a linear chain; descending into a node with no
children always succeeds; an erroring descent leaves the trie
untouched; re-adding an accepted pattern is reported as a duplicate;
for star-free patterns a duplicate report is exactly an already
existing segment path. -/

/-- The chain of fresh nodes grafted when every remaining segment is
new, ending in the handler-carrying endpoint. -/
def buildChain (h : Nat) (p : String) (tg : Option Nat) (sf : Bool) :
    List String → Node → Node
  | [], base => base.setHandler h
  | k :: rest, base =>
    base.setChild (keyOf k) (buildChain h p tg sf rest (freshFor p tg sf k))

theorem addLoop_build (h : Nat) (p : String) (tg : Option Nat) (sf : Bool)
    (segs : List String) :
    ∀ (cur : Node) (sp : Bool), (sf && sp) = false → cur.children = [] →
      addLoop h p tg sf cur segs sp false
        = (buildChain h p tg sf segs cur, none) := by
  induction segs with
  | nil => intro cur sp hsp hc; rfl
  | cons k rest ih =>
    intro cur sp hsp hc
    simp only [addLoop, buildChain, hsp, Bool.false_eq_true, if_false, hc, lookupA]
    rw [ih (freshFor p tg sf k) sp hsp rfl]

theorem addLoop_fresh (h : Nat) (p : String) (tg : Option Nat) (sf : Bool)
    (k : String) (rest : List String) (cur : Node) (hc : cur.children = []) :
    addLoop h p tg sf cur (k :: rest) false true
      = (buildChain h p tg sf (k :: rest) cur, none) := by
  simp only [addLoop, buildChain, Bool.and_false, Bool.false_eq_true, if_false, hc, lookupA]
  rw [addLoop_build h p tg sf rest (freshFor p tg sf k) false (by simp) rfl]

theorem addLoop_err (h : Nat) (p : String) (tg : Option Nat) (sf : Bool)
    (segs : List String) :
    ∀ (cur : Node) (sp dup : Bool) (n1 : Node) (e : RouterErr),
      addLoop h p tg sf cur segs sp dup = (n1, some e) → n1 = cur := by
  induction segs with
  | nil =>
    intro cur sp dup n1 e heq
    cases dup <;> simp [addLoop] at heq
    exact heq.1.symm
  | cons k rest ih =>
    intro cur sp dup n1 e heq
    simp only [addLoop] at heq
    split at heq
    · split at heq
      · split at heq
        · simp only [Prod.mk.injEq] at heq
          exact heq.1.symm
        · simp at heq
      · simp only [Prod.mk.injEq] at heq
        exact heq.1.symm
    · next hsp =>
      split at heq
      · next nx hl =>
        cases hr : addLoop h p tg sf nx rest true dup with
        | mk rn re =>
          rw [hr] at heq
          simp only [Prod.mk.injEq] at heq
          obtain ⟨h1, h2⟩ := heq
          subst h2
          have hx := ih nx true dup rn e hr
          rw [← h1, hx]
          exact setChild_self cur (keyOf k) nx hl
      · next hl =>
        rw [addLoop_build h p tg sf rest (freshFor p tg sf k) sp
          (Bool.not_eq_true _ ▸ hsp) rfl] at heq
        simp at heq

theorem addLoop_again (h p2 : Nat) (p : String) (tg : Option Nat) (sf : Bool)
    (p' : String) (tg' : Option Nat) (segs : List String) :
    ∀ (cur : Node) (sp dup : Bool) (n1 : Node),
      (dup = false → cur.children = []) →
      addLoop h p tg sf cur segs sp dup = (n1, none) →
      ∀ sp2 : Bool,
        (addLoop p2 p' tg' sf n1 segs sp2 true).2 = some RouterErr.duplicate := by
  induction segs with
  | nil =>
    intro cur sp dup n1 hinv heq sp2
    cases dup <;> simp [addLoop] at heq ⊢
  | cons k rest ih =>
    intro cur sp dup n1 hinv heq sp2
    simp only [addLoop] at heq
    split at heq
    · split at heq
      · next nx hl =>
        cases dup with
        | true => simp at heq
        | false =>
          rw [hinv rfl] at hl
          simp [lookupA] at hl
      · simp at heq
    · next hsp =>
      split at heq
      · next nx hl =>
        have hdup : dup = true := by
          cases hd : dup with
          | true => rfl
          | false =>
            rw [hinv hd] at hl
            simp [lookupA] at hl
        subst hdup
        cases hr : addLoop h p tg sf nx rest true true with
        | mk rn re =>
          rw [hr] at heq
          simp only [Prod.mk.injEq] at heq
          obtain ⟨h1, h2⟩ := heq
          subst h2
          have ihx := ih nx true true rn (by intro hh; cases hh) hr
          subst h1
          simp only [addLoop, children_setChild, lookupA_setA]
          by_cases hsp2 : (sf && sp2) = true
          · rw [if_pos hsp2]
            simp
          · rw [if_neg hsp2]
            exact ihx true
      · next hl =>
        rw [addLoop_build h p tg sf rest (freshFor p tg sf k) sp
          (Bool.not_eq_true _ ▸ hsp) rfl] at heq
        simp only [Prod.mk.injEq] at heq
        obtain ⟨h1, h2⟩ := heq
        have ihx := ih (freshFor p tg sf k) sp false _ (fun _ => rfl)
          (addLoop_build h p tg sf rest (freshFor p tg sf k) sp
            (Bool.not_eq_true _ ▸ hsp) rfl)
        subst h1
        simp only [addLoop, children_setChild, lookupA_setA]
        by_cases hsp2 : (sf && sp2) = true
        · rw [if_pos hsp2]
          simp
        · rw [if_neg hsp2]
          exact ihx true

theorem add_err (n : Node) (path : String) (h : Nat) (tg : Option Nat)
    (n1 : Node) (e : RouterErr) (heq : n.add path h tg = (n1, some e)) :
    n1 = n := by
  simp only [Node.add] at heq
  split at heq
  · simp only [Prod.mk.injEq] at heq
    exact heq.1.symm
  · exact addLoop_err _ _ _ _ _ _ _ _ _ _ heq

theorem add_pair (n : Node) (path : String) (h : Nat) (tg : Option Nat) :
    n.add path h tg = ((n.add path h tg).1, (n.add path h tg).2) := rfl

theorem add_twice (t : Node) (pat : String) (h h2 : Nat) (tg tg2 : Option Nat)
    (t1 : Node) (hok : t.add pat h tg = (t1, none)) :
    (t1.add pat h2 tg2).2 = some RouterErr.duplicate := by
  simp only [Node.add] at hok ⊢
  split at hok
  · simp at hok
  · next hstars =>
    rw [if_neg hstars]
    exact addLoop_again h h2 pat tg _ pat tg2 _ t false true t1
      (by intro hh; cases hh) hok false

theorem addLoop_nostar (h : Nat) (p : String) (tg : Option Nat)
    (segs : List String) :
    ∀ (cur : Node) (sp dup : Bool),
      ((addLoop h p tg false cur segs sp dup).2 = some RouterErr.duplicate)
        ↔ (dup = true ∧ hasPath cur segs = true) := by
  induction segs with
  | nil =>
    intro cur sp dup
    cases dup <;> simp [addLoop, hasPath]
  | cons k rest ih =>
    intro cur sp dup
    simp only [addLoop, Bool.false_and, Bool.false_eq_true, if_false, hasPath]
    cases hl : lookupA cur.children (keyOf k) with
    | some nx => simpa using ih nx true dup
    | none =>
      rw [addLoop_build h p tg false rest (freshFor p tg false k) sp
        (by simp) rfl]
      simp

theorem add_nostar_dup (t : Node) (pat : String) (h : Nat) (tg : Option Nat)
    (hst : countStars pat = 0) :
    ((t.add pat h tg).2 = some RouterErr.duplicate)
      ↔ hasPath t (splitPath pat) = true := by
  unfold countStars at hst
  simp only [Node.add, hst]
  simpa using addLoop_nostar h pat tg (splitPath pat) t false true

/-! Lemmas at the `Router.Handle` level. -/

theorem handle_twice (r : Router) (m pat : String) (h tg h2 tg2 : Option Nat)
    (r1 : Router) (hok : r.Handle m pat h tg = (r1, none)) :
    (r1.Handle m pat h2 tg2).2 = some RouterErr.duplicate := by
  simp only [Router.Handle] at hok ⊢
  simp only [Prod.mk.injEq] at hok
  obtain ⟨h1, h2x⟩ := hok
  have hr1 : r1.trees
      = setA r.trees m ((match lookupA r.trees m with
          | some t => t
          | none => emptyRoot).add pat (h.getD 0) tg).1 := by
    rw [← h1]
  rw [hr1]
  simp only [lookupA_setA]
  exact add_twice _ pat (h.getD 0) (h2.getD 0) tg tg2 _ (by rw [← h2x])

theorem handle_nostar_dup (r : Router) (m pat : String) (h tg : Option Nat)
    (hst : countStars pat = 0) :
    ((r.Handle m pat h tg).2 = some RouterErr.duplicate)
      ↔ hasPathR r m pat = true := by
  simp only [Router.Handle, hasPathR]
  cases hl : lookupA r.trees m with
  | some t =>
    simp only [hl]
    exact add_nostar_dup t pat (h.getD 0) tg hst
  | none =>
    simp only [hl]
    rw [add_nostar_dup emptyRoot pat (h.getD 0) tg hst]
    cases hs : splitPath pat with
    | nil => exact absurd hs (splitPath_ne_nil pat)
    | cons a b => simp [hasPath, emptyRoot, Node.children, lookupA]

theorem handle_err_existing (r : Router) (m pat : String) (h tg : Option Nat)
    (r1 : Router) (e : RouterErr) (t : Node) (hl : lookupA r.trees m = some t)
    (heq : r.Handle m pat h tg = (r1, some e)) : r1 = r := by
  simp only [Router.Handle, hl] at heq
  simp only [Prod.mk.injEq] at heq
  obtain ⟨h1, h2⟩ := heq
  have hx : (t.add pat (h.getD 0) tg).1 = t :=
    add_err t pat (h.getD 0) tg _ e (by rw [← h2])
  rw [← h1, hx, setA_self r.trees m t hl]

theorem handle_err_new (r : Router) (m pat : String) (h tg : Option Nat)
    (r1 : Router) (e : RouterErr) (hl : lookupA r.trees m = none)
    (heq : r.Handle m pat h tg = (r1, some e)) :
    r1.trees = setA r.trees m emptyRoot := by
  simp only [Router.Handle, hl] at heq
  simp only [Prod.mk.injEq] at heq
  obtain ⟨h1, h2⟩ := heq
  have hx : (emptyRoot.add pat (h.getD 0) tg).1 = emptyRoot :=
    add_err _ pat (h.getD 0) tg _ e (by rw [← h2])
  rw [← h1, hx]

theorem search_setEmpty (trees : List (String × Node)) (m : String)
    (hm : lookupA trees m = none) (m' p : String) :
    Router.Search ⟨setA trees m emptyRoot⟩ m' p = Router.Search ⟨trees⟩ m' p := by
  by_cases hm' : m' = m
  · subst hm'
    by_cases hany : m' = "ANY"
    · subst hany
      simp [Router.Search, lookupA_setA, hm, find_emptyRoot]
    · have hne : ("ANY" : String) ≠ m' := fun hh => hany hh.symm
      simp only [Router.Search, lookupA_setA, hm,
        lookupA_setA_ne trees m' "ANY" emptyRoot hne]
      cases ha : lookupA trees "ANY" with
      | none => simp [hany, find_emptyRoot]
      | some ta =>
        by_cases hs : (ta.find p).1.isSome
        · simp [hany, hs, find_emptyRoot]
        · simp [hany, hs, find_emptyRoot]
  · have hne' : m' ≠ m := hm'
    by_cases hanym : ("ANY" : String) = m
    · subst hanym
      cases hl' : lookupA trees m' with
      | some t =>
        by_cases hs : (t.find p).1.isSome
        · simp [Router.Search, lookupA_setA,
            lookupA_setA_ne trees "ANY" m' emptyRoot hne', hl', hs, hm']
        · simp [Router.Search, lookupA_setA,
            lookupA_setA_ne trees "ANY" m' emptyRoot hne', hl', hs, hm',
            hm, find_emptyRoot]
      | none =>
        simp [Router.Search, lookupA_setA,
          lookupA_setA_ne trees "ANY" m' emptyRoot hne', hl', hm', hm,
          find_emptyRoot]
    · simp only [Router.Search, lookupA_setA_ne trees m m' emptyRoot hne',
        lookupA_setA_ne trees m "ANY" emptyRoot hanym]

/-! Lemmas about resolution. -/

/-- A node acceptable as a `find` result: it carries a handler, or it is
a star capture node (nonempty parameter name and star flag), which the
resolution loop returns without checking the handler. -/
def nodeOkB : Option Node → Bool
  | some n => n.handler.isSome || (n.param != "" && n.star)
  | none => false

theorem findLoop_step_lit (cur : Node) (k : String) (rest : List String)
    (params : RouterParams) (nx : Node) (hl : lookupA cur.children k = some nx) :
    findLoop cur (k :: rest) params = findStep nx k rest params := by
  simp only [findLoop, hl, findStep]

theorem findLoop_step_star (cur : Node) (k : String) (rest : List String)
    (params : RouterParams) (nx : Node) (hl : lookupA cur.children k = none)
    (hl2 : lookupA cur.children "*" = some nx) :
    findLoop cur (k :: rest) params = findStep nx k rest params := by
  simp only [findLoop, hl, hl2, findStep]

theorem findStep_star (nx : Node) (k : String) (rest : List String)
    (params : RouterParams) (hp : nx.param ≠ "") (hst : nx.star = true) :
    findStep nx k rest params
      = (some nx, insertParam params nx.param (joinRooted (k :: rest))) := by
  simp [findStep, hp, hst]

theorem findLoop_handler_or_star (segs : List String) :
    ∀ (cur : Node) (params : RouterParams),
      (findLoop cur segs params).1 = none
        ∨ nodeOkB (findLoop cur segs params).1 = true := by
  induction segs with
  | nil =>
    intro cur params
    simp only [findLoop]
    cases hl : lookupA cur.children "*" with
    | some nx =>
      cases hst : nx.star with
      | true =>
        cases hh : nx.handler with
        | none => left; simp [hh, hst]
        | some v => right; simp [nodeOkB, hh, hst]
      | false =>
        cases hh : cur.handler with
        | none => left; simp [hh, hst]
        | some v => right; simp [nodeOkB, hh, hst]
    | none =>
      cases hh : cur.handler with
      | none => left; simp [hh]
      | some v => right; simp [nodeOkB, hh]
  | cons k rest ih =>
    intro cur params
    have hstep : ∀ nx : Node,
        (findStep nx k rest params).1 = none
          ∨ nodeOkB (findStep nx k rest params).1 = true := by
      intro nx
      by_cases hp : nx.param = ""
      · simp only [findStep, hp, ne_eq, not_true_eq_false, if_neg, if_false]
        exact ih nx params
      · cases hst : nx.star with
        | true =>
          right
          rw [findStep_star nx k rest params hp hst]
          simp [nodeOkB, hp, hst]
        | false =>
          simp only [findStep, hp, hst, ne_eq, not_false_eq_true, if_true,
            Bool.false_eq_true, if_false]
          exact ih nx _
    cases hl : lookupA cur.children k with
    | some nx =>
      rw [findLoop_step_lit cur k rest params nx hl]
      exact hstep nx
    | none =>
      cases hl2 : lookupA cur.children "*" with
      | some nx =>
        rw [findLoop_step_star cur k rest params nx hl hl2]
        exact hstep nx
      | none =>
        left
        simp [findLoop, hl, hl2]

theorem cleanStack_plain (segs : List String) :
    ∀ acc : List String, (∀ s ∈ segs, s ≠ "" ∧ s ≠ "." ∧ s ≠ "..") →
      cleanStack segs acc = acc.reverse ++ segs := by
  induction segs with
  | nil => intro acc h; simp [cleanStack]
  | cons s rest ih =>
    intro acc h
    obtain ⟨h1, h2, h3⟩ := h s (by simp)
    simp only [cleanStack, h1, h2, h3, if_false, or_self]
    rw [ih (s :: acc) (fun x hx => h x (List.mem_cons_of_mem _ hx))]
    simp

theorem joinRooted_plain (segs : List String)
    (h : ∀ s ∈ segs, s ≠ "" ∧ s ≠ "." ∧ s ≠ "..") :
    joinRooted segs = "/" ++ joinSlash segs := by
  unfold joinRooted
  rw [cleanStack_plain segs [] h]
  simp

/-! Abstract pattern specifiers, used to quantify over the patterns the
spec describes: literal segments, single-segment captures `:name`, and
trailing wildcards `*name`. -/

inductive Spec where
  | lit (s : String)
  | par (name : String)
  | star (name : String)

/-- The concrete pattern segment a specifier denotes. -/
def specSeg : Spec → String
  | .lit s => s
  | .par n => String.mk (':' :: n.data)
  | .star n => String.mk ('*' :: n.data)

/-- Wellformedness of one specifier: a literal is not capture-shaped,
and capture names are nonempty. -/
def wfSpec : Spec → Bool
  | .lit s => !isCaptureSeg s
  | .par n => n != ""
  | .star n => n != ""

def isStarSpec : Spec → Bool
  | .star _ => true
  | _ => false

def isParSpec : Spec → Bool
  | .par _ => true
  | _ => false

/-- Wellformed pattern: nonempty, each specifier wellformed, wildcard
only in the final position. -/
def wfPattern (specs : List Spec) : Bool :=
  !specs.isEmpty && specs.all wfSpec && !(specs.dropLast.any isStarSpec)

/-- A request-path segment list matching the skeleton of a pattern:
equal literal text at literal positions, arbitrary text at captures. -/
def matchesB : List Spec → List String → Bool
  | [], [] => true
  | .lit s :: ps, q :: qs => (q == s) && matchesB ps qs
  | .par _ :: ps, _ :: qs => matchesB ps qs
  | .star _ :: ps, _ :: qs => matchesB ps qs
  | _, _ => false

theorem isCaptureSeg_par (n : String) (h : n ≠ "") :
    isCaptureSeg (specSeg (Spec.par n)) = true := by
  obtain ⟨l⟩ := n
  cases l with
  | nil => exact absurd rfl h
  | cons c cs => rfl

theorem isCaptureSeg_star (n : String) (h : n ≠ "") :
    isCaptureSeg (specSeg (Spec.star n)) = true := by
  obtain ⟨l⟩ := n
  cases l with
  | nil => exact absurd rfl h
  | cons c cs => rfl

theorem keyOf_par (n : String) (h : n ≠ "") :
    keyOf (specSeg (Spec.par n)) = "*" := by
  simp [keyOf, isCaptureSeg_par n h]

theorem keyOf_star (n : String) (h : n ≠ "") :
    keyOf (specSeg (Spec.star n)) = "*" := by
  simp [keyOf, isCaptureSeg_star n h]

theorem paramOf_par (n : String) (h : n ≠ "") :
    paramOf (specSeg (Spec.par n)) = n := by
  simp only [paramOf, isCaptureSeg_par n h, if_true]
  rfl

theorem paramOf_star (n : String) (h : n ≠ "") :
    paramOf (specSeg (Spec.star n)) = n := by
  simp only [paramOf, isCaptureSeg_star n h, if_true]
  rfl

theorem keyOf_lit (s : String) (h : isCaptureSeg s = false) :
    keyOf (specSeg (Spec.lit s)) = s := by
  simp [keyOf, specSeg, h]

theorem paramOf_lit (s : String) (h : isCaptureSeg s = false) :
    paramOf (specSeg (Spec.lit s)) = "" := by
  simp [paramOf, specSeg, h]

theorem isStarSeg_specSeg (x : Spec) (h : wfSpec x = true) :
    isStarSeg (specSeg x) = isStarSpec x := by
  cases x with
  | lit s =>
    obtain ⟨l⟩ := s
    simp only [wfSpec, Bool.not_eq_true', specSeg, isStarSpec] at h ⊢
    cases l with
    | nil => rfl
    | cons c cs =>
      cases cs with
      | nil => rfl
      | cons c2 cs2 =>
        simp only [isCaptureSeg, Bool.or_eq_false_iff, beq_eq_false_iff_ne] at h
        simp [isStarSeg, h.2]
  | par n =>
    obtain ⟨l⟩ := n
    cases l with
    | nil => simp [wfSpec] at h
    | cons c cs => rfl
  | star n =>
    obtain ⟨l⟩ := n
    cases l with
    | nil => simp [wfSpec] at h
    | cons c cs => rfl

theorem filter_starSeg_map (specs : List Spec)
    (h : ∀ x ∈ specs, wfSpec x = true) :
    ((specs.map specSeg).filter isStarSeg).length
      = (specs.filter isStarSpec).length := by
  induction specs with
  | nil => rfl
  | cons x ps ih =>
    simp only [List.map_cons, List.filter_cons]
    rw [isStarSeg_specSeg x (h x (by simp))]
    have ih' := ih (fun y hy => h y (List.mem_cons_of_mem _ hy))
    cases hx : isStarSpec x <;> simp [hx, ih']

theorem starCount_le_one (specs : List Spec)
    (h : (specs.dropLast.any isStarSpec) = false) :
    (specs.filter isStarSpec).length ≤ 1 := by
  induction specs with
  | nil => simp
  | cons x ps ih =>
    cases ps with
    | nil =>
      cases hx : isStarSpec x <;> simp [List.filter, hx]
    | cons y qs =>
      simp only [List.dropLast, List.any_cons, Bool.or_eq_false_iff] at h
      obtain ⟨hx, hrest⟩ := h
      have := ih (by simpa [List.dropLast] using hrest)
      simpa [List.filter_cons, hx] using this

theorem buildChain_param (h : Nat) (p : String) (tg : Option Nat) (sf : Bool)
    (segs : List String) (base : Node) :
    (buildChain h p tg sf segs base).param = base.param := by
  cases segs <;> simp [buildChain]

theorem buildChain_star (h : Nat) (p : String) (tg : Option Nat) (sf : Bool)
    (segs : List String) (base : Node) :
    (buildChain h p tg sf segs base).star = base.star := by
  cases segs <;> simp [buildChain]

theorem dropLast_any_tail (x : Spec) (ps : List Spec)
    (h : ((x :: ps).dropLast.any isStarSpec) = false) :
    (ps.dropLast.any isStarSpec) = false := by
  cases ps with
  | nil => rfl
  | cons y qs =>
    simp only [List.dropLast, List.any_cons, Bool.or_eq_false_iff] at h
    simpa [List.dropLast] using h.2

theorem find_buildChain (h : Nat) (p : String) (tg : Option Nat) (sf : Bool)
    (specs : List Spec) :
    ∀ (qs : List String) (base : Node) (params : RouterParams),
      base.children = [] →
      (∀ x ∈ specs, wfSpec x = true) →
      (sf = true → ∀ x ∈ specs, isParSpec x = false) →
      (specs.dropLast.any isStarSpec) = false →
      matchesB specs qs = true →
      foundHandler
        (findLoop (buildChain h p tg sf (specs.map specSeg) base) qs params)
        = some h := by
  induction specs with
  | nil =>
    intro qs base params hc hwf hpar hlast hm
    cases qs with
    | nil =>
      simp [buildChain, findLoop, hc, lookupA, foundHandler]
    | cons q qs' => simp [matchesB] at hm
  | cons x ps ih =>
    intro qs base params hc hwf hpar hlast hm
    have hwfx : wfSpec x = true := hwf x (by simp)
    have hwf' : ∀ y ∈ ps, wfSpec y = true :=
      fun y hy => hwf y (List.mem_cons_of_mem _ hy)
    have hpar' : sf = true → ∀ y ∈ ps, isParSpec y = false :=
      fun hsf y hy => hpar hsf y (List.mem_cons_of_mem _ hy)
    have hlast' := dropLast_any_tail x ps hlast
    cases x with
    | lit s =>
      cases qs with
      | nil => simp [matchesB] at hm
      | cons q qs' =>
        simp only [matchesB, Bool.and_eq_true, beq_iff_eq] at hm
        obtain ⟨hq, hm'⟩ := hm
        have hcap : isCaptureSeg s = false := by
          simpa [wfSpec, Bool.not_eq_true'] using hwfx
        simp only [List.map_cons, buildChain, keyOf_lit s hcap]
        set sub := buildChain h p tg sf (ps.map specSeg)
          (freshFor p tg sf (specSeg (Spec.lit s))) with hsub
        have hchild : (base.setChild s sub).children = [(s, sub)] := by
          simp [hc, setA]
        have hparam : sub.param = "" := by
          rw [hsub, buildChain_param]
          simp [freshFor, Node.param, paramOf, specSeg, hcap]
        rw [findLoop_step_lit (base.setChild s sub) q qs' params sub
          (by rw [hchild]; simp [lookupA, hq])]
        simp only [findStep, hparam, ne_eq, not_true_eq_false, if_false]
        rw [hsub]
        exact ih qs' (freshFor p tg sf (specSeg (Spec.lit s))) params rfl
          hwf' hpar' hlast' hm'
    | par n =>
      cases qs with
      | nil => simp [matchesB] at hm
      | cons q qs' =>
        simp only [matchesB] at hm
        have hn : n ≠ "" := by simpa [wfSpec] using hwfx
        have hsf : sf = false := by
          cases hv : sf with
          | false => rfl
          | true =>
            have := hpar hv (Spec.par n) (by simp)
            simp [isParSpec] at this
        simp only [List.map_cons, buildChain, keyOf_par n hn]
        set sub := buildChain h p tg sf (ps.map specSeg)
          (freshFor p tg sf (specSeg (Spec.par n))) with hsub
        have hchild : (base.setChild "*" sub).children = [("*", sub)] := by
          simp [hc, setA]
        have hparam : sub.param = n := by
          rw [hsub, buildChain_param]
          simp [freshFor, Node.param, paramOf_par n hn]
        have hstar : sub.star = sf := by
          rw [hsub, buildChain_star]
          simp [freshFor, Node.star]
        have hstep : findLoop (base.setChild "*" sub) (q :: qs') params
            = findStep sub q qs' params := by
          by_cases hq : q = "*"
          · exact findLoop_step_lit _ _ _ _ _
              (by rw [hchild]; simp [lookupA, hq])
          · exact findLoop_step_star _ _ _ _ _
              (by rw [hchild]; simp [lookupA, Ne.symm hq])
              (by rw [hchild]; simp [lookupA])
        rw [hstep]
        simp only [findStep, hparam, hstar, hsf, hn, ne_eq, not_false_eq_true,
          if_true, Bool.false_eq_true, if_false]
        exact ih qs' (freshFor p tg sf (specSeg (Spec.par n)))
          (insertParam params n q) rfl hwf' hpar' hlast' hm
    | star n =>
      have hps : ps = [] := by
        cases hp : ps with
        | nil => rfl
        | cons y qs =>
          rw [hp] at hlast
          simp [List.dropLast, isStarSpec] at hlast
      subst hps
      cases qs with
      | nil => simp [matchesB] at hm
      | cons q qs' =>
        have hqs' : qs' = [] := by
          cases hq : qs' with
          | nil => rfl
          | cons z zs =>
            rw [hq] at hm
            simp [matchesB] at hm
        subst hqs'
        have hn : n ≠ "" := by simpa [wfSpec] using hwfx
        simp only [List.map_cons, List.map_nil, buildChain, keyOf_star n hn]
        set sub := (freshFor p tg sf (specSeg (Spec.star n))).setHandler h with hsub
        have hchild : (base.setChild "*" sub).children = [("*", sub)] := by
          simp [hc, setA]
        have hparam : sub.param = n := by
          rw [hsub]
          simp [freshFor, Node.setHandler, Node.param, paramOf_star n hn]
        have hstar : sub.star = sf := by
          rw [hsub]
          simp [freshFor, Node.setHandler, Node.star]
        have hhand : sub.handler = some h := by
          rw [hsub]
          simp
        have hstep : findLoop (base.setChild "*" sub) (q :: []) params
            = findStep sub q [] params := by
          by_cases hq : q = "*"
          · exact findLoop_step_lit _ _ _ _ _
              (by rw [hchild]; simp [lookupA, hq])
          · exact findLoop_step_star _ _ _ _ _
              (by rw [hchild]; simp [lookupA, Ne.symm hq])
              (by rw [hchild]; simp [lookupA])
        rw [hstep]
        cases hv : sf with
        | true =>
          rw [findStep_star sub q [] params (by rw [hparam]; exact hn)
            (by rw [hstar, hv])]
          simp [foundHandler, hhand]
        | false =>
          have hsubc : sub.children = [] := by
            rw [hsub]
            simp [freshFor, Node.setHandler, Node.children]
          simp only [findStep, hparam, hstar, hv, hn, ne_eq, not_false_eq_true,
            if_true, Bool.false_eq_true, if_false]
          simp [findLoop, hsubc, lookupA, foundHandler, hhand]

theorem add_fresh_chain (P : String) (h : Nat) (tg : Option Nat)
    (specs : List Spec) (hsplit : splitPath P = specs.map specSeg)
    (hwf : ∀ x ∈ specs, wfSpec x = true)
    (hlast : (specs.dropLast.any isStarSpec) = false)
    (hne : specs ≠ []) :
    emptyRoot.add P h tg
      = (buildChain h P tg (((specs.map specSeg).filter isStarSeg).length != 0)
          (specs.map specSeg) emptyRoot, none) := by
  have hle : ((specs.map specSeg).filter isStarSeg).length ≤ 1 := by
    rw [filter_starSeg_map specs hwf]
    exact starCount_le_one specs hlast
  simp only [Node.add, hsplit]
  rw [if_neg (by omega)]
  cases specs with
  | nil => exact absurd rfl hne
  | cons x ps =>
    simp only [List.map_cons]
    exact addLoop_fresh h P tg _ (specSeg x) (ps.map specSeg) emptyRoot rfl

/-- The effect of `Handle` on a fresh router, by computation. -/
theorem handle_fresh (m P : String) (h : Nat) (tg : Option Nat) :
    freshRouter.Handle m P (some h) tg
      = (⟨[(m, (emptyRoot.add P h tg).1)]⟩, (emptyRoot.add P h tg).2) := rfl

/-- The four-step fallback policy stated by the specification: resolve
the exact-method trie first; on a miss return the ANY trie result
instead when that trie exists; with no exact-method trie resolve the ANY
trie directly; with neither trie report no match. -/
def searchPolicy (r : Router) (method path : String) : Option Node × RouterParams :=
  match lookupA r.trees method with
  | some t =>
    let res := t.find path
    if res.1.isSome then res
    else
      match lookupA r.trees "ANY" with
      | some ta => ta.find path
      | none => (none, [])
  | none =>
    match lookupA r.trees "ANY" with
    | some ta => ta.find path
    | none => (none, [])

theorem search_eq_policy (r : Router) (m p : String) :
    r.Search m p = searchPolicy r m p := by
  simp only [Router.Search, searchPolicy]
  cases h0 : lookupA r.trees m with
  | some t =>
    simp only [Option.isNone_some, false_and, if_false]
    by_cases hs : (t.find p).1.isSome = true
    · simp [hs]
    · by_cases hm : m = "ANY"
      · subst hm
        simp [hs, h0]
      · cases ha : lookupA r.trees "ANY" <;> simp [hs, hm, ha]
  | none =>
    simp only [Option.isNone_none, true_and]
    by_cases hm : m = "ANY"
    · subst hm
      simp [h0]
    · simp only [hm, ne_eq, not_false_eq_true, if_true]
      cases ha : lookupA r.trees "ANY" with
      | none => simp
      | some ta =>
        by_cases hs : (ta.find p).1.isSome = true
        · simp [hs]
        · simp [hs, hm, ha]

/-- Helper: searching a one-trie router under its own method returns the
find result when that result carries a node. -/
theorem search_single_hit (m p : String) (t : Node)
    (hs : (t.find p).1.isSome = true) :
    Router.Search ⟨[(m, t)]⟩ m p = t.find p := by
  have hl : lookupA (Router.mk [(m, t)]).trees m = some t := by simp [lookupA]
  simp [Router.Search, hl, hs]

/-! The claims. -/

/-- C4: Search follows the four-step fallback policy: the exact-method
trie is resolved first when it exists; on a miss the ANY trie result is
returned instead when that trie exists; with no exact-method trie the
ANY trie is resolved directly; with neither trie the result is no match.
In particular, with only an ANY registration for /x, a GET and a POST
lookup of /x both succeed with the same handler, and a GET trie that
exists but misses a path still falls back to a matching ANY route. -/
theorem c4_theorem :
    (∀ (r : Router) (m p : String), r.Search m p = searchPolicy r m p)
    ∧ searchedHandler (freshRouter.Handle "ANY" "/x" (some 3) none).1 "GET" "/x"
        = some 3
    ∧ searchedHandler (freshRouter.Handle "ANY" "/x" (some 3) none).1 "POST" "/x"
        = some 3
    ∧ (freshRouter.Handle "ANY" "/x" (some 3) none).1.Search "GET" "/x"
        = (freshRouter.Handle "ANY" "/x" (some 3) none).1.Search "POST" "/x"
    ∧ searchedHandler
        ((freshRouter.Handle "GET" "/g" (some 1) none).1.Handle
          "ANY" "/y" (some 2) none).1 "GET" "/y" = some 2 :=
  ⟨search_eq_policy, rfl, rfl, rfl, rfl⟩

/-- C6: for every router state and method, registering a pattern with
two or more `*name` segments returns the InvalidSyntax error. -/
theorem c6_theorem (r : Router) (m pat : String) (h tg : Option Nat)
    (hst : 2 ≤ countStars pat) :
    (r.Handle m pat h tg).2 = some RouterErr.invalid := by
  unfold countStars at hst
  simp only [Router.Handle, Node.add]
  rw [if_pos (by omega)]

/-- Witness for C6 at the pattern /a/*b/*c on a fresh router. -/
theorem c6_witness :
    2 ≤ countStars "/a/*b/*c"
    ∧ (freshRouter.Handle "GET" "/a/*b/*c" (some 1) none).2
        = some RouterErr.invalid :=
  ⟨by decide, c6_theorem freshRouter "GET" "/a/*b/*c" (some 1) none (by decide)⟩

/-- C7: under one method, registering :id twice at the same position
yields DuplicateRoute, registering :id and then :id/:name succeeds, and
registering /posts2 and then /posts2/*id yields InvalidSyntax (a
wildcard grafted below an already-existing node whose continuation has
no corresponding child). -/
theorem c7_theorem :
    ((freshRouter.Handle "GET" "/:id" (some 1) none).1.Handle
        "GET" "/:id" (some 2) none).2 = some RouterErr.duplicate
    ∧ ((freshRouter.Handle "GET" "/:id" (some 1) none).1.Handle
        "GET" "/:id/:name" (some 2) none).2 = none
    ∧ ((freshRouter.Handle "GET" "/posts2" (some 1) none).1.Handle
        "GET" "/posts2/*id" (some 2) none).2 = some RouterErr.invalid :=
  ⟨rfl, rfl, rfl⟩

/-- C9 counterexample: a bare `*` segment is NOT rejected at
registration time; the registration succeeds with no error, refuting
the claim that such a registration is invalid and rejected. -/
theorem c9_counterexample :
    (freshRouter.Handle "GET" "/*" (some 5) none).2 = none := rfl

/-- C9 amended: a bare `*` segment (length 1) is not treated as a
capture and is not rejected; it is stored as a literal under the
reserved key `*`, so it acts as an anonymous single-segment wildcard:
the route matches any single segment, binds no parameter, and does not
match deeper paths. -/
theorem c9_amended_theorem :
    isCaptureSeg "*" = false
    ∧ (freshRouter.Handle "GET" "/*" (some 5) none).2 = none
    ∧ searchedHandler (freshRouter.Handle "GET" "/*" (some 5) none).1
        "GET" "/hello" = some 5
    ∧ searchedParams (freshRouter.Handle "GET" "/*" (some 5) none).1
        "GET" "/hello" = []
    ∧ searchedFound (freshRouter.Handle "GET" "/*" (some 5) none).1
        "GET" "/hello/world" = false :=
  ⟨rfl, rfl, rfl, rfl, rfl⟩

/-- C5 counterexample: with only /:x/*b registered, resolving /foo
consumes every request segment and lands (through the trailing-wildcard
early return) on the handler-less intermediate :x node, yet find
returns that node rather than no node, refuting the claim that a
handler-less landing is always a non-match. -/
theorem c5_counterexample :
    ((Node.find (treeOf (freshRouter.Handle "GET" "/:x/*b" (some 7) none).1
        "GET") "/foo").1).isSome = true
    ∧ foundHandler (Node.find (treeOf
        (freshRouter.Handle "GET" "/:x/*b" (some 7) none).1 "GET") "/foo")
        = none :=
  ⟨rfl, rfl⟩

/-- C5 amended: a node returned by resolution either carries a handler
or is a star capture node returned by the trailing-wildcard early
return (nonempty parameter name and star flag); apart from that early
return, a resolution landing on a handler-less node is a non-match.  In
particular, with only /posts/:id registered, resolving /posts returns
no node. -/
theorem c5_amended_theorem :
    (∀ (segs : List String) (cur : Node) (params : RouterParams),
        (findLoop cur segs params).1 = none
          ∨ nodeOkB (findLoop cur segs params).1 = true)
    ∧ (Node.find (treeOf (freshRouter.Handle "GET" "/posts/:id" (some 4) none).1
        "GET") "/posts").1 = none
    ∧ searchedFound (freshRouter.Handle "GET" "/posts/:id" (some 4) none).1
        "GET" "/posts" = false :=
  ⟨findLoop_handler_or_star, rfl, rfl⟩

/-- C10: when Handle fails, every already existing trie is left exactly
as it was; at most a fresh empty root (holding no route) is created for
the method; and every subsequent Search returns exactly the same result
as before the failed call. -/
theorem c10_theorem (r : Router) (m pat : String) (h tg : Option Nat)
    (r1 : Router) (e : RouterErr)
    (herr : r.Handle m pat h tg = (r1, some e)) :
    (∀ m', lookupA r1.trees m' = lookupA r.trees m'
        ∨ (m' = m ∧ lookupA r.trees m' = none
            ∧ lookupA r1.trees m' = some emptyRoot))
    ∧ (∀ m' p', r1.Search m' p' = r.Search m' p') := by
  cases hl : lookupA r.trees m with
  | some t =>
    have hr1 : r1 = r := handle_err_existing r m pat h tg r1 e t hl herr
    subst hr1
    exact ⟨fun m' => Or.inl rfl, fun m' p' => rfl⟩
  | none =>
    have htrees : r1.trees = setA r.trees m emptyRoot :=
      handle_err_new r m pat h tg r1 e hl herr
    constructor
    · intro m'
      by_cases hm' : m' = m
      · subst hm'
        exact Or.inr ⟨rfl, hl, by rw [htrees, lookupA_setA]⟩
      · exact Or.inl (by rw [htrees, lookupA_setA_ne r.trees m m' emptyRoot hm'])
    · intro m' p'
      have hr1 : r1 = (⟨setA r.trees m emptyRoot⟩ : Router) := by
        cases r1 with
        | mk trs =>
          rw [Router.mk.injEq]
          exact htrees
      rw [hr1]
      exact search_setEmpty r.trees m hl m' p'

/-- Witness for C10: a failed two-wildcard registration leaves a Search
result unchanged. -/
theorem c10_witness :
    (freshRouter.Handle "GET" "/a/*b/*c" (some 1) none).1.Search "GET" "/q"
      = freshRouter.Search "GET" "/q" :=
  (c10_theorem freshRouter "GET" "/a/*b/*c" (some 1) none
    (freshRouter.Handle "GET" "/a/*b/*c" (some 1) none).1
    RouterErr.invalid rfl).2 "GET" "/q"

/-- C2 counterexample: with /posts/*id registered, resolving the path
/posts/.. binds id to "/" (the joined remainder is passed through the
path-cleaning of filepath.Join), not to the plain slash-joined
remainder "/..", refuting the general binding rule as stated. -/
theorem c2_counterexample :
    searchedParams (freshRouter.Handle "GET" "/posts/*id" (some 9) none).1
        "GET" "/posts/.." = [("id", "/")]
    ∧ ("/" : String) ≠ "/.." :=
  ⟨rfl, by decide⟩

/-- C2 amended: a trailing wildcard match stops resolution immediately
and binds the name to filepath.Join of "/" and the remaining segments;
this equals the slash-joined remainder with a leading slash whenever
the remaining segments are plain (nonempty, not "." and not "..").  The
three concrete bindings of the claim hold. -/
theorem c2_amended_theorem :
    (∀ (cur : Node) (k : String) (rest : List String) (params : RouterParams)
        (nx : Node),
        (lookupA cur.children k = some nx
          ∨ (lookupA cur.children k = none
              ∧ lookupA cur.children "*" = some nx)) →
        nx.param ≠ "" → nx.star = true →
        findLoop cur (k :: rest) params
          = (some nx, insertParam params nx.param (joinRooted (k :: rest))))
    ∧ (∀ segs : List String, (∀ s ∈ segs, s ≠ "" ∧ s ≠ "." ∧ s ≠ "..") →
        joinRooted segs = "/" ++ joinSlash segs)
    ∧ searchedParams (freshRouter.Handle "GET" "/posts/*id" (some 9) none).1
        "GET" "/posts" = [("id", "/")]
    ∧ searchedParams (freshRouter.Handle "GET" "/posts/*id" (some 9) none).1
        "GET" "/posts/123" = [("id", "/123")]
    ∧ searchedParams (freshRouter.Handle "GET" "/posts/*id" (some 9) none).1
        "GET" "/posts/123/456" = [("id", "/123/456")] := by
  refine ⟨?_, joinRooted_plain, rfl, rfl, rfl⟩
  intro cur k rest params nx hsel hp hst
  cases hsel with
  | inl hl =>
    rw [findLoop_step_lit cur k rest params nx hl]
    exact findStep_star nx k rest params hp hst
  | inr hlr =>
    rw [findLoop_step_star cur k rest params nx hlr.1 hlr.2]
    exact findStep_star nx k rest params hp hst

/-- Witness for C2 amended: the wildcard step at a concrete star node
and the plain join at concrete segments. -/
theorem c2_amended_witness :
    findLoop
        (Node.mk "/posts/*id" "posts"
          [("*", Node.mk "/posts/*id" "*" [] (some 9) "id" true (some none))]
          none "" true (some none))
        ["123"] []
      = (some (Node.mk "/posts/*id" "*" [] (some 9) "id" true (some none)),
          insertParam [] "id" (joinRooted ["123"]))
    ∧ joinRooted ["a", "b"] = "/" ++ joinSlash ["a", "b"] :=
  ⟨c2_amended_theorem.1 _ "123" [] []
      (Node.mk "/posts/*id" "*" [] (some 9) "id" true (some none))
      (Or.inr ⟨rfl, rfl⟩) (by decide) rfl,
    c2_amended_theorem.2.1 ["a", "b"] (by decide)⟩

/-- C3 counterexample: after /a/:b/:c is registered, the pattern
/a/*b/*c normalizes to the very same segment path a,*,* which already
exists in the trie, so descending it creates no new node (the router is
returned unchanged), yet Handle reports InvalidSyntax rather than
DuplicateRoute: the two-wildcard precheck fires before duplicate
detection. -/
theorem c3_counterexample :
    (freshRouter.Handle "GET" "/a/:b/:c" (some 1) none).2 = none
    ∧ hasPathR (freshRouter.Handle "GET" "/a/:b/:c" (some 1) none).1
        "GET" "/a/*b/*c" = true
    ∧ (freshRouter.Handle "GET" "/a/:b/:c" (some 1) none).1.Handle
        "GET" "/a/*b/*c" (some 2) none
      = ((freshRouter.Handle "GET" "/a/:b/:c" (some 1) none).1,
          some RouterErr.invalid) :=
  ⟨rfl, rfl, rfl⟩

/-- C3 amended: DuplicateRoute characterizes an already-existing path
only once the wildcard checks pass.  Re-registering any previously
accepted (method, pattern) pair yields DuplicateRoute; for a pattern
with no `*name` segment, Handle returns DuplicateRoute exactly when the
whole normalized segment path already exists in that method trie (in
particular a strict prefix of a registered pattern); a pattern with two
or more `*name` segments yields InvalidSyntax even when its path
already exists. -/
theorem c3_amended_theorem :
    (∀ (r : Router) (m pat : String) (h tg h2 tg2 : Option Nat) (r1 : Router),
        r.Handle m pat h tg = (r1, none) →
        (r1.Handle m pat h2 tg2).2 = some RouterErr.duplicate)
    ∧ (∀ (r : Router) (m pat : String) (h tg : Option Nat),
        countStars pat = 0 →
        (((r.Handle m pat h tg).2 = some RouterErr.duplicate)
          ↔ hasPathR r m pat = true))
    ∧ ((freshRouter.Handle "GET" "/posts/:id" (some 1) none).1.Handle
        "GET" "/posts" (some 2) none).2 = some RouterErr.duplicate :=
  ⟨fun r m pat h tg h2 tg2 r1 hok => handle_twice r m pat h tg h2 tg2 r1 hok,
    fun r m pat h tg hst => handle_nostar_dup r m pat h tg hst,
    rfl⟩

/-- Witness for C3 amended: the re-registration clause and the star-free
characterization discharged at the pattern /w on a fresh router. -/
theorem c3_amended_witness :
    ((freshRouter.Handle "GET" "/w" (some 1) none).1.Handle
        "GET" "/w" (some 2) none).2 = some RouterErr.duplicate
    ∧ ((((freshRouter.Handle "GET" "/w" (some 1) none).1.Handle
          "GET" "/w" (some 2) none).2 = some RouterErr.duplicate)
        ↔ hasPathR (freshRouter.Handle "GET" "/w" (some 1) none).1
            "GET" "/w" = true) :=
  ⟨c3_amended_theorem.1 freshRouter "GET" "/w" (some 1) none (some 2) none
      (freshRouter.Handle "GET" "/w" (some 1) none).1 rfl,
    c3_amended_theorem.2.1 (freshRouter.Handle "GET" "/w" (some 1) none).1
      "GET" "/w" (some 2) none (by decide)⟩

/-- C8: at each resolution depth a child keyed by the exact literal
segment text is preferred, and the reserved capture child is consulted
only when no literal child matches; with /posts/new and /posts/:id both
registered, /posts/new resolves to the literal route with no bindings
while /posts/123 resolves to the capture route binding id to 123. -/
theorem c8_theorem :
    (∀ (cur : Node) (k : String) (rest : List String) (params : RouterParams)
        (nx : Node), lookupA cur.children k = some nx →
        findLoop cur (k :: rest) params = findStep nx k rest params)
    ∧ (∀ (cur : Node) (k : String) (rest : List String) (params : RouterParams)
        (nx : Node), lookupA cur.children k = none →
        lookupA cur.children "*" = some nx →
        findLoop cur (k :: rest) params = findStep nx k rest params)
    ∧ searchedHandler ((freshRouter.Handle "GET" "/posts/new" (some 1) none).1.Handle
        "GET" "/posts/:id" (some 2) none).1 "GET" "/posts/new" = some 1
    ∧ searchedParams ((freshRouter.Handle "GET" "/posts/new" (some 1) none).1.Handle
        "GET" "/posts/:id" (some 2) none).1 "GET" "/posts/new" = []
    ∧ searchedHandler ((freshRouter.Handle "GET" "/posts/new" (some 1) none).1.Handle
        "GET" "/posts/:id" (some 2) none).1 "GET" "/posts/123" = some 2
    ∧ searchedParams ((freshRouter.Handle "GET" "/posts/new" (some 1) none).1.Handle
        "GET" "/posts/:id" (some 2) none).1 "GET" "/posts/123" = [("id", "123")] :=
  ⟨findLoop_step_lit, findLoop_step_star, rfl, rfl, rfl, rfl⟩

/-- Witness for C8: the literal-preference step at a concrete node. -/
theorem c8_witness :
    findLoop
        (Node.mk "/x" ""
          [("a", Node.mk "/x" "a" [] (some 3) "" false (some none))]
          none "" false none)
        ["a"] []
      = findStep (Node.mk "/x" "a" [] (some 3) "" false (some none)) "a" [] [] :=
  c8_theorem.1 _ "a" [] [] (Node.mk "/x" "a" [] (some 3) "" false (some none)) rfl

/-- C1 counterexample: in a fresh router register /:x/*b (a capture
followed by a trailing wildcard, allowed by the claim); resolving
/foo/bar, whose capture segments were replaced by literal text, returns
a node, but that node is the handler-less :x intermediate node (the
whole pattern carries the star flag, so resolution early-returns
there), not the node carrying the registered handler. -/
theorem c1_counterexample :
    (freshRouter.Handle "GET" "/:x/*b" (some 7) none).2 = none
    ∧ searchedFound (freshRouter.Handle "GET" "/:x/*b" (some 7) none).1
        "GET" "/foo/bar" = true
    ∧ searchedHandler (freshRouter.Handle "GET" "/:x/*b" (some 7) none).1
        "GET" "/foo/bar" = none :=
  ⟨rfl, rfl, rfl⟩

/-- C1 amended: for every wellformed pattern (literal segments, :name
captures, at most one trailing *name wildcard) that does not mix a
:name capture with a *name wildcard, registering it into a fresh router
succeeds, and resolving any path whose capture segments are replaced by
arbitrary literal text succeeds and returns the handler registered for
the pattern. -/
theorem c1_amended_theorem (specs : List Spec) (qs : List String)
    (m P Q : String) (h : Nat) (tg : Option Nat)
    (hwf : wfPattern specs = true)
    (hmix : (specs.any isParSpec && specs.any isStarSpec) = false)
    (hm : matchesB specs qs = true)
    (hP : splitPath P = specs.map specSeg)
    (hQ : splitPath Q = qs) :
    (freshRouter.Handle m P (some h) tg).2 = none
    ∧ searchedHandler (freshRouter.Handle m P (some h) tg).1 m Q = some h := by
  simp only [wfPattern, Bool.and_eq_true, Bool.not_eq_true'] at hwf
  obtain ⟨⟨hne0, hall⟩, hlast⟩ := hwf
  have hwfall : ∀ x ∈ specs, wfSpec x = true := by
    intro x hx
    exact List.all_eq_true.mp hall x hx
  have hne : specs ≠ [] := by
    cases specs with
    | nil => simp at hne0
    | cons a b => exact List.cons_ne_nil a b
  have hadd := add_fresh_chain P h tg specs hP hwfall hlast hne
  have hh : freshRouter.Handle m P (some h) tg
      = (⟨[(m, buildChain h P tg
            (((specs.map specSeg).filter isStarSeg).length != 0)
            (specs.map specSeg) emptyRoot)]⟩, none) := by
    rw [handle_fresh, hadd]
  have hparcond : (((specs.map specSeg).filter isStarSeg).length != 0) = true →
      ∀ x ∈ specs, isParSpec x = false := by
    intro hsf x hx
    rw [filter_starSeg_map specs hwfall] at hsf
    have hlen : (specs.filter isStarSpec).length ≠ 0 := by simpa using hsf
    have hstar : specs.any isStarSpec = true := by
      rw [List.any_eq_true]
      cases hf : specs.filter isStarSpec with
      | nil => rw [hf] at hlen; simp at hlen
      | cons y ys =>
        have hy : y ∈ specs.filter isStarSpec := by
          rw [hf]
          exact List.mem_cons_self y ys
        rw [List.mem_filter] at hy
        exact ⟨y, hy.1, hy.2⟩
    rw [hstar, Bool.and_true] at hmix
    have hx' := List.any_eq_false.mp hmix x hx
    simpa using hx'
  have hfind : foundHandler (Node.find
      (buildChain h P tg (((specs.map specSeg).filter isStarSeg).length != 0)
        (specs.map specSeg) emptyRoot) Q) = some h := by
    unfold Node.find
    rw [hQ]
    exact find_buildChain h P tg _ specs qs emptyRoot [] rfl hwfall hparcond
      hlast hm
  have hsome : ((buildChain h P tg
      (((specs.map specSeg).filter isStarSeg).length != 0)
      (specs.map specSeg) emptyRoot).find Q).1.isSome = true := by
    unfold foundHandler at hfind
    cases hres : ((buildChain h P tg
        (((specs.map specSeg).filter isStarSeg).length != 0)
        (specs.map specSeg) emptyRoot).find Q).1 with
    | none => rw [hres] at hfind; simp at hfind
    | some nn => rfl
  constructor
  · rw [hh]
  · rw [hh]
    simp only [searchedHandler]
    rw [search_single_hit m Q _ hsome]
    exact hfind

/-- Witness for C1 amended at the pattern /posts/:id resolved with
/posts/42. -/
theorem c1_amended_witness :
    (freshRouter.Handle "GET" "/posts/:id" (some 7) none).2 = none
    ∧ searchedHandler (freshRouter.Handle "GET" "/posts/:id" (some 7) none).1
        "GET" "/posts/42" = some 7 :=
  c1_amended_theorem [Spec.lit "posts", Spec.par "id"] ["posts", "42"]
    "GET" "/posts/:id" "/posts/42" 7 none
    (by decide) (by decide) (by decide) (by decide) (by decide)

end Sariaf
